import Mathlib

/-
  Verification of usdx-yt-dl.py: a shallow embedding of the song-header
  parser, the v=/a= source-tag extractor, the Metadata model, the
  reconciliation state machine of Song.process, the header writer and the
  byte-to-text decoder, together with theorems settling the specified
  properties.  Strings are modelled as lists of characters, file contents
  as character lists (for the text layer) or byte lists (for the decoder),
  and the song folder as the list of file basenames it holds.  External
  collaborators (yt-dlp, rsgain, mutagen, chmod) are modelled by oracles
  describing their observable outcome, as they are outside the program.
-/

namespace UsdxYtDl

abbrev Str := List Char

/-- The error taxonomy of the program: the seven SkipException kinds plus
the two non-Skip failure modes the Python runtime can produce in the
modelled code paths (TypeError from re.fullmatch(None), and the plain
Exception raised by _set_id3_tags). -/
inductive PErr where
  | insufficientData
  | fileCorrupt
  | unexpectedState
  | encodingError
  | conservativeSkip
  | unknownMediaFormat
  | downloadFailed
  | typeError
  | fatalError
deriving DecidableEq

-- ---------------------------------------------------------------------
-- Basic string helpers
-- ---------------------------------------------------------------------

def hasChar (c : Char) (s : Str) : Bool :=
  s.any (fun x => decide (x = c))

def memb (f : Str) (disk : List Str) : Bool :=
  disk.any (fun g => decide (g = f))

-- Python str.splitlines: line-break characters, with "\r\n" one break.
def isLineBreakChar (c : Char) : Bool :=
  decide (c = '\n' ∨ c = '\r' ∨ c = Char.ofNat 11 ∨ c = Char.ofNat 12 ∨
    c = Char.ofNat 28 ∨ c = Char.ofNat 29 ∨ c = Char.ofNat 30 ∨
    c = Char.ofNat 133 ∨ c = Char.ofNat 8232 ∨ c = Char.ofNat 8233)

def splitlinesAux : Str → Str → List Str
  | [], acc => if acc = [] then [] else [acc.reverse]
  | '\r' :: '\n' :: rest, acc => acc.reverse :: splitlinesAux rest []
  | c :: rest, acc =>
    if isLineBreakChar c then acc.reverse :: splitlinesAux rest []
    else splitlinesAux rest (c :: acc)

def splitlines (s : Str) : List Str := splitlinesAux s []

-- ---------------------------------------------------------------------
-- Source-tag extractor: Metadata._media_tags_from_usdb_metadata
-- The Python code runs re.fullmatch of (.*,)?v=([^, \t\n\r\f\v]+)(,.*)?
-- (and the a= variant) and returns group(2).  We embed the backtracking
-- semantics of this fixed pattern: the greedy (.*,)? tries the split
-- after each comma from the rightmost leftward ('.' never matches '\n'),
-- then the empty option; inside a candidate, ([^...]+) takes the maximal
-- run (shorter runs can never let (,.*)? complete, since the following
-- character is then neither ',' nor end of input).
-- ---------------------------------------------------------------------

-- the character class [^, \t\n\r\f\v] excludes these:
def isTagForbidden (c : Char) : Bool :=
  decide (c = ',' ∨ c = ' ' ∨ c = '\t' ∨ c = '\n' ∨ c = '\r' ∨
    c = Char.ofNat 12 ∨ c = Char.ofNat 11)

def tagOk (c : Char) : Bool := !(isTagForbidden c)

-- the maximal run matched by the greedy ([^, \t\n\r\f\v]+) and what follows
def tagRun (rest : Str) : Str := rest.takeWhile tagOk

def tagRem (rest : Str) : Str := rest.dropWhile tagOk

-- match "([^...]+)(,.*)?" against rest, anchored at both ends
def matchAfterKey (rest : Str) : Option Str :=
  if tagRun rest = [] then none
  else if tagRem rest = [] then some (tagRun rest)
  else if (tagRem rest).headI = ',' then
    (if hasChar '\n' (tagRem rest).tail then none else some (tagRun rest))
  else none

-- match the suffix "key=([^...]+)(,.*)?" against s (anchored at both ends)
def matchTail (key : Char) (s : Str) : Option Str :=
  match s with
  | k :: e :: rest => if k = key ∧ e = '=' then matchAfterKey rest else none
  | _ => none

-- try the candidate split points for the greedy (.*,)? from right to left;
-- lrev is the reversed part of the input to the left of the current split.
-- A split after a comma is viable only if everything before the comma is
-- newline-free (since '.' does not match '\n').
def tryRev (key : Char) : Str → Str → Option Str
  | [], right => matchTail key right
  | c :: lrev, right =>
    if c = ',' ∧ hasChar '\n' lrev = false then
      match matchTail key right with
      | some r => some r
      | none => tryRev key lrev (c :: right)
    else tryRev key lrev (c :: right)

def fullmatchTag (key : Char) (s : Str) : Option Str :=
  tryRev key s.reverse []

-- returns (video tag, audio tag), as the Python classmethod does
def media_tags_from_usdb_metadata (tag : Str) : Option Str × Option Str :=
  (fullmatchTag 'v' tag, fullmatchTag 'a' tag)

-- ---------------------------------------------------------------------
-- The spec-side grammar of the tag field (for the refinement claim C6):
-- a comma-separated token list, where a token v=<id> (resp. a=<id>) with
-- <id> a nonempty run of characters excluding comma and whitespace sets
-- the video (resp. audio) id; unrecognized tokens are ignored; a later
-- token overrides an earlier one.
-- ---------------------------------------------------------------------

def splitOnComma : Str → List Str
  | [] => [[]]
  | c :: rest =>
    if c = ',' then [] :: splitOnComma rest
    else (c :: (splitOnComma rest).headI) :: (splitOnComma rest).tail

def recognizeTok (key : Char) (t : Str) : Option Str :=
  match t with
  | k :: e :: tagId =>
    if k = key ∧ e = '=' ∧ tagId ≠ [] ∧ tagId.all tagOk then
      some tagId
    else none
  | _ => none

def grammarTag (key : Char) (s : Str) : Option Str :=
  ((splitOnComma s).filterMap (recognizeTok key)).getLast?

-- the first comma-delimited token of s
def firstTok (s : Str) : Str := s.takeWhile (fun c => !(decide (c = ',')))

-- ---------------------------------------------------------------------
-- Metadata model and its two construction paths
-- ---------------------------------------------------------------------

structure Metadata where
  title : Str
  artist : Str
  mp3 : Option Str
  cover : Option Str
  background : Option Str
  video : Option Str
  comment : Str
  video_tag : Option Str
  audio_tag : Option Str
deriving DecidableEq

-- Metadata.from_raw_data.  When comment is None and video is None, the
-- Python code passes None into re.fullmatch, which raises TypeError; we
-- surface that as PErr.typeError.
def Metadata.from_raw_data (title artist : Str) (mp3 cover background video : Option Str)
    (comment : Option Str) : Except PErr Metadata :=
  let normalized_video : Option Str := match comment with | some _ => video | none => none
  let normalized_comment : Option Str := match comment with | some c => some c | none => video
  match normalized_comment with
  | none => .error .typeError
  | some nc =>
    let tags := media_tags_from_usdb_metadata nc
    if tags.1 = none ∧ tags.2 = none then .error .insufficientData
    else .ok { title := title, artist := artist, mp3 := mp3, cover := cover,
               background := background, video := normalized_video, comment := nc,
               video_tag := tags.1, audio_tag := tags.2 }

-- ---------------------------------------------------------------------
-- Header parser: Song._parse_file
-- ---------------------------------------------------------------------

def commentMarker : Str := "usdx-yt-dl:".data

def KEY_TITLE : Str := "TITLE".data
def KEY_ARTIST : Str := "ARTIST".data
def KEY_MP3 : Str := "MP3".data
def KEY_COVER : Str := "COVER".data
def KEY_BACKGROUND : Str := "BACKGROUND".data
def KEY_VIDEO : Str := "VIDEO".data
def KEY_COMMENT : Str := "COMMENT".data

-- line.startswith("#")
def startsHash (l : Str) : Bool := decide (l.head? = some '#')

-- Python s.split(":", maxsplit=1), returning none when there is no colon
def splitColon1 (s : Str) : Option (Str × Str) :=
  match s.dropWhile (fun c => !(decide (c = ':'))) with
  | [] => none
  | _ :: v => some (s.takeWhile (fun c => !(decide (c = ':'))), v)

def read_line (line : Str) : Except PErr (Str × Str) :=
  match splitColon1 (line.drop 1) with
  | none => .error .fileCorrupt
  | some kv => if kv.1 = [] ∨ kv.2 = [] then .error .fileCorrupt else .ok kv

-- insertion-ordered dict with last-value-wins, as a key/value list
def dictInsert (m : List (Str × Str)) (k : Str) (v : Str) : List (Str × Str) :=
  if m.any (fun kv => decide (kv.1 = k)) then
    m.map (fun kv => if kv.1 = k then (k, v) else kv)
  else m ++ [(k, v)]

def dictGet (m : List (Str × Str)) (k : Str) : Option Str :=
  (m.find? (fun kv => decide (kv.1 = k))).map (fun kv => kv.2)

def dictOfPairs (ps : List (Str × Str)) : List (Str × Str) :=
  ps.foldl (fun m kv => dictInsert m kv.1 kv.2) []

def mapExcept (f : Str → Except PErr (Str × Str)) : List Str → Except PErr (List (Str × Str))
  | [] => .ok []
  | l :: ls =>
    match f l with
    | .error e => .error e
    | .ok kv =>
      match mapExcept f ls with
      | .error e => .error e
      | .ok kvs => .ok (kv :: kvs)

def headerLines (contents : Str) : List Str :=
  (splitlines contents).takeWhile startsHash

def headerPairs (contents : Str) : Except PErr (List (Str × Str)) :=
  mapExcept read_line (headerLines contents)

def bodyOf (contents : Str) : Str :=
  List.intercalate ['\n'] ((splitlines contents).drop (headerLines contents).length)

def required (raw : List (Str × Str)) (field : Str) : Except PErr Str :=
  match dictGet raw field with
  | some v => .ok v
  | none => .error .insufficientData

def commentArg (raw : List (Str × Str)) : Option Str :=
  match dictGet raw KEY_COMMENT with
  | some rc =>
    if commentMarker.isPrefixOf rc then some (rc.drop commentMarker.length) else none
  | none => none

def parse_file (contents : Str) : Except PErr (Metadata × List (Str × Str) × Str) :=
  match headerPairs contents with
  | .error e => .error e
  | .ok pairs =>
    let raw := dictOfPairs pairs
    match required raw KEY_TITLE with
    | .error e => .error e
    | .ok title =>
      match required raw KEY_ARTIST with
      | .error e => .error e
      | .ok artist =>
        match Metadata.from_raw_data title artist (dictGet raw KEY_MP3)
            (dictGet raw KEY_COVER) (dictGet raw KEY_BACKGROUND)
            (dictGet raw KEY_VIDEO) (commentArg raw) with
        | .error e => .error e
        | .ok md => .ok (md, raw, bodyOf contents)

-- ---------------------------------------------------------------------
-- Header writer: Song._set_raw and Song._write
-- ---------------------------------------------------------------------

def set_raw (m : List (Str × Str)) (field : Str) (v : Option Str) : List (Str × Str) :=
  match v with
  | some s => dictInsert m field s
  | none =>
    if m.any (fun kv => decide (kv.1 = field)) then
      m.filter (fun kv => decide (kv.1 ≠ field))
    else m

def write_raw (md : Metadata) (raw : List (Str × Str)) : List (Str × Str) :=
  let r1 := set_raw raw KEY_TITLE (some md.title)
  let r2 := set_raw r1 KEY_ARTIST (some md.artist)
  let r3 := set_raw r2 KEY_MP3 md.mp3
  let r4 := set_raw r3 KEY_COVER md.cover
  let r5 := set_raw r4 KEY_BACKGROUND md.background
  let r6 := set_raw r5 KEY_VIDEO md.video
  set_raw r6 KEY_COMMENT (some (commentMarker ++ md.comment))

def lineOf (kv : Str × Str) : Str := '#' :: (kv.1 ++ (':' :: kv.2))

def write_file (md : Metadata) (raw : List (Str × Str)) (body : Str) : Str :=
  List.intercalate ['\n'] ((write_raw md raw).map lineOf) ++ ('\n' :: body)

-- owned fields: the keys Song._write sets or unsets
def ownedKeys : List Str :=
  [KEY_TITLE, KEY_ARTIST, KEY_MP3, KEY_COVER, KEY_BACKGROUND, KEY_VIDEO, KEY_COMMENT]

def nonOwnedPair (kv : Str × Str) : Bool := decide (¬ kv.1 ∈ ownedKeys)

def lineKey (l : Str) : Str := (l.drop 1).takeWhile (fun c => !(decide (c = ':')))

def nonOwnedLine (l : Str) : Bool := decide (¬ lineKey l ∈ ownedKeys)

-- ---------------------------------------------------------------------
-- Reconciliation engine: Song.process and its helpers.  The song folder
-- is the list of file basenames present; yt-dlp's observable behaviour
-- is an oracle (it is an external collaborator).
-- ---------------------------------------------------------------------

-- the literal f" [{tag}]." with Python rendering None as "None"
def fmtTag (t : Option Str) : Str :=
  " [".data ++ (match t with | some s => s | none => "None".data) ++ "].".data

-- Python substring containment: needle in haystack
def strContains (haystack needle : Str) : Bool :=
  match haystack with
  | [] => needle.isPrefixOf []
  | _ :: rest => needle.isPrefixOf haystack || strContains rest needle

def fileCurrent (f : Str) (t : Option Str) : Bool := strContains f (fmtTag t)

def governingMp3Tag (md : Metadata) : Option Str :=
  match md.audio_tag with | some a => some a | none => md.video_tag

-- any(filename is not None and f" [{tag}]." not in filename ...)
def isOutdated (md : Metadata) : Bool :=
  [(md.mp3, governingMp3Tag md), (md.video, md.video_tag)].any fun ft =>
    match ft.1 with
    | some f => !(fileCurrent f ft.2)
    | none => false

def recordedFiles (md : Metadata) : List Str :=
  [md.mp3, md.video].filterMap id

-- os.remove with contextlib.suppress(FileNotFoundError) over the recorded
-- files; returns (new folder contents, names actually deleted)
def deleteAll : List Str → List Str → List Str × List Str
  | disk, [] => (disk, [])
  | disk, f :: fs =>
    let hit := memb f disk
    let res := deleteAll (disk.filter (fun g => decide (g ≠ f))) fs
    (res.1, (if hit then [f] else []) ++ res.2)

def mp3Found (md : Metadata) (disk : List Str) : Bool :=
  match md.mp3 with | some f => memb f disk | none => false

def videoFound (md : Metadata) (disk : List Str) : Bool :=
  match md.video with | some f => memb f disk | none => false

-- glob "*.jpg" (glob does not match names starting with a dot)
def isJpgName (f : Str) : Bool :=
  decide (¬ f.head? = some '.') && ".jpg".data.isSuffixOf f

def jpgFiles (disk : List Str) : List Str := disk.filter isJpgName

def set_cover (md : Metadata) (disk : List Str) : Except PErr Metadata :=
  match jpgFiles disk with
  | [] => .ok { md with cover := none, background := none }
  | [f] => .ok { md with cover := some f, background := some f }
  | _ => .error .unexpectedState

-- Observable outcome of the yt-dlp invocations for one song (external
-- collaborator): whether a call exits non-zero, and which video/mp3 files
-- are found in the scratch directory afterwards.
structure DlOracle where
  callFails : Bool
  tempVideoFiles : List Str
  tempMp3Files : List Str
deriving DecidableEq

structure DlResult where
  invoked : Bool
  err : Option PErr
  md : Metadata
  moved : List Str
deriving DecidableEq

-- Song._download
def download (md : Metadata) (o : DlOracle) : DlResult :=
  if md.video_tag = none ∧ md.audio_tag = none then
    { invoked := false, err := some .insufficientData, md := md, moved := [] }
  else if o.callFails then
    { invoked := true, err := some .downloadFailed, md := md, moved := [] }
  else if md.video_tag.isSome ∧ o.tempVideoFiles.length ≠ 1 then
    { invoked := true, err := some .unknownMediaFormat, md := md, moved := [] }
  else
    match o.tempMp3Files with
    | [mp3name] =>
      -- video_name = basename(video_files[0]) if video_tag is not None else None;
      -- the length-one guard above makes head? a some when video_tag is set
      let videoName : Option Str := if md.video_tag = none then none else o.tempVideoFiles.head?
      { invoked := true, err := none,
        md := { md with video := videoName, mp3 := some mp3name },
        moved := mp3name :: videoName.toList }
    | _ => { invoked := true, err := some .unknownMediaFormat, md := md, moved := [] }

-- Song._set_id3_tags: no-op without mutagen; with mutagen it raises a
-- plain (fatal) Exception when the mp3 is unset or missing on disk
def set_id3_tags (mutagenOn : Bool) (md : Metadata) (disk : List Str) : Option PErr :=
  if mutagenOn then
    match md.mp3 with
    | none => some .fatalError
    | some f => if memb f disk then none else some .fatalError
  else none

structure ProcResult where
  err : Option PErr
  md : Metadata
  disk : List Str
  deleted : List Str
  fetchInvoked : Bool
  wrote : Bool
deriving DecidableEq

-- the tail of Song.process shared by the STALE and MISSING paths:
-- _set_cover; _download; _set_id3_tags; _fix_permissions; _write
def fetchPath (mutagenOn : Bool) (md : Metadata) (disk : List Str) (deleted : List Str)
    (o : DlOracle) : ProcResult :=
  match set_cover md disk with
  | .error e => { err := some e, md := md, disk := disk, deleted := deleted,
                  fetchInvoked := false, wrote := false }
  | .ok md1 =>
    let dl := download md1 o
    match dl.err with
    | some e => { err := some e, md := md1, disk := disk, deleted := deleted,
                  fetchInvoked := dl.invoked, wrote := false }
    | none =>
      let disk2 := disk ++ dl.moved
      match set_id3_tags mutagenOn dl.md disk2 with
      | some e => { err := some e, md := dl.md, disk := disk2, deleted := deleted,
                    fetchInvoked := dl.invoked, wrote := false }
      | none => { err := none, md := dl.md, disk := disk2, deleted := deleted,
                  fetchInvoked := dl.invoked, wrote := true }

-- Song.process
def process (mutagenOn : Bool) (md : Metadata) (disk : List Str) (o : DlOracle) : ProcResult :=
  if isOutdated md then
    let res := deleteAll disk (recordedFiles md)
    fetchPath mutagenOn md res.1 res.2 o
  else
    if mp3Found md disk = true ∧ (videoFound md disk = true ∨ md.video = none) then
      match set_id3_tags mutagenOn md disk with
      | some e => { err := some e, md := md, disk := disk, deleted := [],
                    fetchInvoked := false, wrote := false }
      | none => { err := none, md := md, disk := disk, deleted := [],
                  fetchInvoked := false, wrote := false }
    else if mp3Found md disk = true then
      { err := some .conservativeSkip, md := md, disk := disk, deleted := [],
        fetchInvoked := false, wrote := false }
    else if videoFound md disk = true then
      { err := some .conservativeSkip, md := md, disk := disk, deleted := [],
        fetchInvoked := false, wrote := false }
    else fetchPath mutagenOn md disk [] o

-- Spec-side reading of the tag-embedding rule in claim C7: the literal
-- " [<tag>]." sits immediately before the extension, i.e. the name is
-- stem ++ " [<tag>]." ++ ext with a dot-free ext.
def tagBeforeExt (f : Str) (t : Str) : Bool :=
  match (f.reverse).dropWhile (fun c => !(decide (c = '.'))) with
  | '.' :: pre => ((" [".data ++ t ++ "]".data).reverse).isPrefixOf pre
  | _ => false

-- ---------------------------------------------------------------------
-- Text decoder: utf8_contents.  Bytes are Nat < 256; a decoded text is
-- the list of Unicode code points.  Python's strict utf-8 decoder,
-- the cp1252 decoder (five bytes are undefined and raise
-- UnicodeDecodeError), and str.encode("utf-8") which fails exactly on
-- surrogate code points.
-- ---------------------------------------------------------------------

def isCont (b : Nat) : Bool := decide (0x80 ≤ b ∧ b ≤ 0xBF)

def cont2ok (b b2 : Nat) : Bool :=
  if b = 0xE0 then decide (0xA0 ≤ b2 ∧ b2 ≤ 0xBF)
  else if b = 0xED then decide (0x80 ≤ b2 ∧ b2 ≤ 0x9F)
  else isCont b2

def cont3ok (b b2 : Nat) : Bool :=
  if b = 0xF0 then decide (0x90 ≤ b2 ∧ b2 ≤ 0xBF)
  else if b = 0xF4 then decide (0x80 ≤ b2 ∧ b2 ≤ 0x8F)
  else isCont b2

def decodeUtf8 : List Nat → Option (List Nat)
  | [] => some []
  | b :: rest =>
    if b ≤ 0x7F then (decodeUtf8 rest).map (fun cs => b :: cs)
    else if 0xC2 ≤ b ∧ b ≤ 0xDF then
      match rest with
      | b2 :: r =>
        if isCont b2 then
          (decodeUtf8 r).map (fun cs => ((b - 0xC0) * 0x40 + (b2 - 0x80)) :: cs)
        else none
      | [] => none
    else if 0xE0 ≤ b ∧ b ≤ 0xEF then
      match rest with
      | b2 :: b3 :: r =>
        if cont2ok b b2 ∧ isCont b3 then
          (decodeUtf8 r).map
            (fun cs => ((b - 0xE0) * 0x1000 + (b2 - 0x80) * 0x40 + (b3 - 0x80)) :: cs)
        else none
      | _ => none
    else if 0xF0 ≤ b ∧ b ≤ 0xF4 then
      match rest with
      | b2 :: b3 :: b4 :: r =>
        if cont3ok b b2 ∧ isCont b3 ∧ isCont b4 then
          (decodeUtf8 r).map
            (fun cs => ((b - 0xF0) * 0x40000 + (b2 - 0x80) * 0x1000 +
              (b3 - 0x80) * 0x40 + (b4 - 0x80)) :: cs)
        else none
      | _ => none
    else none

def cp1252Map (b : Nat) : Option Nat :=
  if b ≤ 0x7F then some b
  else if 0xA0 ≤ b ∧ b ≤ 0xFF then some b
  else
    match b with
    | 0x80 => some 0x20AC
    | 0x82 => some 0x201A
    | 0x83 => some 0x0192
    | 0x84 => some 0x201E
    | 0x85 => some 0x2026
    | 0x86 => some 0x2020
    | 0x87 => some 0x2021
    | 0x88 => some 0x02C6
    | 0x89 => some 0x2030
    | 0x8A => some 0x0160
    | 0x8B => some 0x2039
    | 0x8C => some 0x0152
    | 0x8E => some 0x017D
    | 0x91 => some 0x2018
    | 0x92 => some 0x2019
    | 0x93 => some 0x201C
    | 0x94 => some 0x201D
    | 0x95 => some 0x2022
    | 0x96 => some 0x2013
    | 0x97 => some 0x2014
    | 0x98 => some 0x02DC
    | 0x99 => some 0x2122
    | 0x9A => some 0x0161
    | 0x9B => some 0x203A
    | 0x9C => some 0x0153
    | 0x9E => some 0x017E
    | 0x9F => some 0x0178
    | _ => none

def decodeCp1252 : List Nat → Option (List Nat)
  | [] => some []
  | b :: bs =>
    match cp1252Map b with
    | none => none
    | some c =>
      match decodeCp1252 bs with
      | none => none
      | some cs => some (c :: cs)

inductive DecodeOutcome where
  | ok (text : List Nat)
  | encodingError
  | uncaughtDecodeError
deriving DecidableEq

def isSurrogate (c : Nat) : Bool := decide (0xD800 ≤ c ∧ c ≤ 0xDFFF)

def utf8_contents (bs : List Nat) : DecodeOutcome :=
  match decodeUtf8 bs with
  | some text => .ok text
  | none =>
    match decodeCp1252 bs with
    | none => .uncaughtDecodeError
    | some text =>
      if text.any isSurrogate then .encodingError else .ok text

-- ---------------------------------------------------------------------
-- Concrete inputs used to instantiate and refute the claims
-- ---------------------------------------------------------------------

def sT : Str := "t".data
def sA : Str := "a".data
def sFoo : Str := "foo".data
def sVeq : Str := "v=abc".data
def sAXyz : Str := "a=xyz".data
def tagAbc : Str := "abc".data
def tagXyz : Str := "xyz".data
def sFmp4 : Str := "f.mp4".data
def cxC6 : Str := "x\n,v=abc".data
def exC6 : Str := "a=xyz,v=abc".data

def oracle0 : DlOracle := { callFails := false, tempVideoFiles := [], tempMp3Files := [] }

-- the Metadata the processed path yields for COMMENT "a=xyz" when a raw
-- VIDEO field is still present
def mdC2 : Metadata :=
  { title := sT, artist := sA, mp3 := none, cover := none, background := none,
    video := some sFmp4, comment := sAXyz, video_tag := none, audio_tag := some tagXyz }

-- the fresh-path result for a raw VIDEO field "v=abc"
def mdC2w : Metadata :=
  { title := sT, artist := sA, mp3 := none, cover := none, background := none,
    video := none, comment := sVeq, video_tag := some tagAbc, audio_tag := none }

def sMp3New : Str := "song.mp3".data

def mdAudioOnly : Metadata :=
  { title := sT, artist := sA, mp3 := none, cover := none, background := none,
    video := none, comment := sAXyz, video_tag := none, audio_tag := some tagXyz }

def oracleDl : DlOracle := { callFails := false, tempVideoFiles := [], tempMp3Files := [sMp3New] }

-- a filename carrying the tag substring away from the extension
def mp3Odd : Str := "x [abc].y.mp3".data

def mdC7 : Metadata :=
  { title := sT, artist := sA, mp3 := some mp3Odd, cover := none, background := none,
    video := none, comment := sVeq, video_tag := some tagAbc, audio_tag := none }

def sOld : Str := "old.mp3".data

def mdC7w : Metadata :=
  { title := sT, artist := sA, mp3 := some sOld, cover := none, background := none,
    video := none, comment := sVeq, video_tag := some tagAbc, audio_tag := none }

-- a processed header file with a current mp3 and no recorded video
def fileC8 : Str :=
  "#TITLE:t\n#ARTIST:a\n#COMMENT:usdx-yt-dl:v=abc\n#MP3:Song [abc].mp3\nbody".data

def sSongAbc : Str := "Song [abc].mp3".data
def sBody : Str := "body".data
def sMarkedComment : Str := "usdx-yt-dl:v=abc".data

def mdC8 : Metadata :=
  { title := sT, artist := sA, mp3 := some sSongAbc, cover := none, background := none,
    video := none, comment := sVeq, video_tag := some tagAbc, audio_tag := none }

def rawC8 : List (Str × Str) :=
  [(KEY_TITLE, sT), (KEY_ARTIST, sA), (KEY_COMMENT, sMarkedComment), (KEY_MP3, sSongAbc)]

-- a song with both recorded names current for tag v1
def sMp3Cur : Str := "s [v1].mp3".data
def sMp4Cur : Str := "s [v1].mp4".data
def tagV1 : Str := "v1".data

def mdBoth : Metadata :=
  { title := sT, artist := sA, mp3 := some sMp3Cur, cover := none, background := none,
    video := some sMp4Cur, comment := sVeq, video_tag := some tagV1, audio_tag := none }

-- a fresh header file with one passthrough field
def fileC1 : Str := "#TITLE:t\n#ARTIST:a\n#VIDEO:v=abc\n#GAP:100\nhello".data
def sGapKey : Str := "GAP".data
def sGapVal : Str := "100".data
def sHello : Str := "hello".data

def mdC1 : Metadata :=
  { title := sT, artist := sA, mp3 := none, cover := none, background := none,
    video := none, comment := sVeq, video_tag := some tagAbc, audio_tag := none }

def rawC1 : List (Str × Str) :=
  [(KEY_TITLE, sT), (KEY_ARTIST, sA), (KEY_VIDEO, sVeq), (sGapKey, sGapVal)]

def sCJpg : Str := "c.jpg".data

-- ---------------------------------------------------------------------
-- Agreement of the regex matcher with the token grammar on newline-free
-- inputs (machinery for claim C6)
-- ---------------------------------------------------------------------

theorem splitOnComma_cons_comma (s : Str) : splitOnComma (',' :: s) = [] :: splitOnComma s := by
  simp [splitOnComma]

theorem splitOnComma_cons (c : Char) (s : Str) (hc : ¬ c = ',') :
    splitOnComma (c :: s) = (c :: (splitOnComma s).headI) :: (splitOnComma s).tail := by
  simp [splitOnComma, hc]

theorem splitOnComma_ne_nil (s : Str) : splitOnComma s ≠ [] := by
  cases s with
  | nil => simp [splitOnComma]
  | cons c rest =>
    by_cases hc : c = ','
    · subst hc
      rw [splitOnComma_cons_comma]
      simp
    · rw [splitOnComma_cons c rest hc]
      simp

theorem splitOnComma_comma_free (t : Str) (h : ∀ c ∈ t, ¬ c = ',') : splitOnComma t = [t] := by
  induction t with
  | nil => rfl
  | cons c rest ih =>
    have hc : ¬ c = ',' := h c (List.mem_cons_self c rest)
    rw [splitOnComma_cons c rest hc, ih (fun x hx => h x (List.mem_cons_of_mem c hx))]
    rfl

theorem splitOnComma_append (a b : Str) :
    splitOnComma (a ++ ',' :: b) = splitOnComma a ++ splitOnComma b := by
  induction a with
  | nil =>
    rw [List.nil_append, splitOnComma_cons_comma]
    rfl
  | cons c a ih =>
    by_cases hc : c = ','
    · subst hc
      rw [List.cons_append, splitOnComma_cons_comma, splitOnComma_cons_comma, ih]
      rfl
    · rw [List.cons_append, splitOnComma_cons c _ hc, splitOnComma_cons c _ hc, ih]
      obtain ⟨t, ts, h⟩ := List.exists_cons_of_ne_nil (splitOnComma_ne_nil a)
      rw [h]
      simp

theorem takeWhile_append_all {α : Type} (p : α → Bool) (xs zs : List α)
    (h : ∀ x ∈ xs, p x = true) : (xs ++ zs).takeWhile p = xs ++ zs.takeWhile p := by
  induction xs with
  | nil => simp
  | cons a t ih =>
    have ha := h a (List.mem_cons_self a t)
    simp only [List.cons_append, List.takeWhile_cons_of_pos ha]
    rw [ih (fun x hx => h x (List.mem_cons_of_mem a hx))]

theorem takeWhile_all {α : Type} (p : α → Bool) (l : List α) (h : ∀ x ∈ l, p x = true) :
    l.takeWhile p = l := by
  have h2 := takeWhile_append_all p l [] h
  simpa using h2

theorem dropWhile_head_false {α : Type} (p : α → Bool) (l : List α) (c : α) (t : List α)
    (h : l.dropWhile p = c :: t) : p c = false := by
  induction l with
  | nil => simp [List.dropWhile] at h
  | cons a l ih =>
    cases hpa : p a with
    | true =>
      rw [List.dropWhile_cons_of_pos hpa] at h
      exact ih h
    | false =>
      rw [List.dropWhile_cons_of_neg (by simp [hpa])] at h
      injection h with h1 h2
      subst h1
      exact hpa

theorem tagOk_ne_comma (c : Char) (h : tagOk c = true) : ¬ c = ',' := by
  intro hc
  subst hc
  simp [tagOk, isTagForbidden] at h

theorem firstTok_cons_comma (s : Str) : firstTok (',' :: s) = [] := by
  simp [firstTok]

theorem firstTok_cons (c : Char) (s : Str) (hc : ¬ c = ',') :
    firstTok (c :: s) = c :: firstTok s := by
  simp only [firstTok]
  rw [List.takeWhile_cons_of_pos (by simp [hc])]

theorem recognizeTok_short (key : Char) (t : Str) (h : t.length ≤ 1) :
    recognizeTok key t = none := by
  match t with
  | [] => rfl
  | [a] => rfl
  | a :: b :: t => simp at h

theorem hasChar_cons (c x : Char) (s : Str) :
    hasChar c (x :: s) = (decide (x = c) || hasChar c s) := by
  simp [hasChar]

theorem matchAfterKey_eq (rest : Str) (hnl : hasChar '\n' rest = false) :
    matchAfterKey rest =
      (if firstTok rest ≠ [] ∧ (firstTok rest).all tagOk then some (firstTok rest) else none) := by
  have hsp : tagRun rest ++ tagRem rest = rest := List.takeWhile_append_dropWhile tagOk rest
  have hall : ∀ c ∈ tagRun rest, tagOk c = true := fun c hc => List.mem_takeWhile_imp hc
  have hallc : ∀ c ∈ tagRun rest, (fun c => !(decide (c = ','))) c = true := by
    intro c hc
    simp [tagOk_ne_comma c (hall c hc)]
  cases hrem : tagRem rest with
  | nil =>
    have hre : tagRun rest = rest := by
      have h2 := hsp
      rw [hrem, List.append_nil] at h2
      exact h2
    have hft : firstTok rest = rest := by
      apply takeWhile_all
      intro c hc
      rw [← hre] at hc
      exact hallc c hc
    have hallr : ∀ c ∈ rest, tagOk c = true := by
      intro c hc
      rw [← hre] at hc
      exact hall c hc
    unfold matchAfterKey
    rw [hrem, hre, hft]
    by_cases hrn : rest = []
    · subst hrn
      simp
    · rw [if_neg hrn, if_pos (by rfl), if_pos (by exact ⟨hrn, by simpa using hallr⟩)]
  | cons r0 tl =>
    have hr0 : tagOk r0 = false := dropWhile_head_false _ _ _ _ hrem
    have hrest2 : tagRun rest ++ r0 :: tl = rest := by
      have h2 := hsp
      rw [hrem] at h2
      exact h2
    by_cases hr0c : r0 = ','
    · subst hr0c
      have hftr : firstTok rest = tagRun rest := by
        conv_lhs => rw [← hrest2]
        simp only [firstTok]
        rw [takeWhile_append_all _ _ _ hallc, List.takeWhile_cons_of_neg (by simp)]
        simp
      have htl : hasChar '\n' tl = false := by
        have h2 := hnl
        rw [← hrest2] at h2
        simp only [hasChar, List.any_append, List.any_cons, Bool.or_eq_false_iff] at h2
        simpa [hasChar] using h2.2.2
      unfold matchAfterKey
      rw [hrem, hftr]
      simp only [List.headI, List.tail_cons]
      by_cases htr : tagRun rest = []
      · rw [if_pos htr, htr]
        simp
      · rw [if_neg htr, if_neg (by simp), if_pos trivial]
        simp only [htl]
        rw [if_neg (by simp), if_pos (by exact ⟨htr, by simpa using hall⟩)]
    · have hftr : firstTok rest = tagRun rest ++ r0 :: firstTok tl := by
        conv_lhs => rw [← hrest2]
        simp only [firstTok]
        rw [takeWhile_append_all _ _ _ hallc, List.takeWhile_cons_of_pos (by simp [hr0c])]
      unfold matchAfterKey
      rw [hrem, hftr]
      simp only [List.headI, List.tail_cons]
      by_cases htr : tagRun rest = []
      · rw [if_pos htr, htr]
        simp [hr0]
      · rw [if_neg htr, if_neg (by simp), if_neg hr0c]
        rw [if_neg (by simp [hr0])]

theorem matchTail_eq_recognize (key : Char) (hkey : isTagForbidden key = false) (w : Str)
    (hw : hasChar '\n' w = false) : matchTail key w = recognizeTok key (firstTok w) := by
  have hkc : ¬ key = ',' := by
    intro h
    subst h
    simp [isTagForbidden] at hkey
  cases w with
  | nil => rfl
  | cons k w1 =>
    cases w1 with
    | nil =>
      have hlen : (firstTok [k]).length ≤ 1 := by
        have h2 := (List.takeWhile_sublist (l := [k]) (fun c => !(decide (c = ',')))).length_le
        simpa [firstTok] using h2
      rw [recognizeTok_short key _ hlen]
      rfl
    | cons e rest =>
      have hrest : hasChar '\n' rest = false := by
        simp only [hasChar, List.any_cons, Bool.or_eq_false_iff] at hw
        simpa [hasChar] using hw.2.2
      simp only [matchTail]
      by_cases hke : k = key ∧ e = '='
      · rw [if_pos hke]
        obtain ⟨hk, he⟩ := hke
        have hkc2 : ¬ k = ',' := by rw [hk]; exact hkc
        have hec : ¬ e = ',' := by rw [he]; decide
        rw [firstTok_cons k _ hkc2, firstTok_cons e _ hec]
        rw [matchAfterKey_eq rest hrest]
        simp only [recognizeTok]
        by_cases hcond : firstTok rest ≠ [] ∧ (firstTok rest).all tagOk
        · rw [if_pos hcond, if_pos (by exact ⟨hk, he, hcond.1, hcond.2⟩)]
        · rw [if_neg hcond]
          split
          · next hcc => exact absurd hcc.2.2 hcond
          · rfl
      · rw [if_neg hke]
        by_cases hk : k = ','
        · subst hk
          rw [firstTok_cons_comma]
          rfl
        · rw [firstTok_cons k _ hk]
          by_cases he : e = ','
          · subst he
            rw [firstTok_cons_comma]
            exact (recognizeTok_short key [k] (by simp)).symm
          · rw [firstTok_cons e _ he]
            simp only [recognizeTok]
            rw [if_neg (by tauto)]

theorem getLast?_filterMap_concat {α β : Type} (f : α → Option β) (l : List α) (t : α) :
    ((l ++ [t]).filterMap f).getLast? =
      (match f t with
       | some v => some v
       | none => (l.filterMap f).getLast?) := by
  rw [List.filterMap_append]
  cases h : f t with
  | some v => simp [List.filterMap, h]
  | none => simp [List.filterMap, h]

theorem tryRev_eq (key : Char) (hkey : isTagForbidden key = false) (lrev : Str) :
    ∀ right : Str, hasChar '\n' lrev = false → hasChar '\n' right = false →
      tryRev key lrev right =
        ((splitOnComma (lrev.reverse ++ firstTok right)).filterMap (recognizeTok key)).getLast? := by
  induction lrev with
  | nil =>
    intro right _ hr
    have hfree : ∀ c ∈ firstTok right, ¬ c = ',' := by
      intro c hc
      have := List.mem_takeWhile_imp hc
      simpa using this
    rw [show ([] : Str).reverse ++ firstTok right = firstTok right by simp]
    rw [splitOnComma_comma_free _ hfree]
    rw [show tryRev key [] right = matchTail key right from rfl]
    rw [matchTail_eq_recognize key hkey right hr]
    cases h : recognizeTok key (firstTok right) with
    | some v => simp [List.filterMap, h]
    | none => simp [List.filterMap, h]
  | cons c lrev ih =>
    intro right hl hr
    have hc0 : decide (c = '\n') = false ∧ hasChar '\n' lrev = false := by
      simp only [hasChar, List.any_cons, Bool.or_eq_false_iff] at hl
      exact ⟨hl.1, by simpa [hasChar] using hl.2⟩
    by_cases hc : c = ','
    · subst hc
      rw [show tryRev key (',' :: lrev) right =
            (if (',' : Char) = ',' ∧ hasChar '\n' lrev = false then
              match matchTail key right with
              | some r => some r
              | none => tryRev key lrev (',' :: right)
             else tryRev key lrev (',' :: right)) from rfl]
      rw [if_pos ⟨rfl, hc0.2⟩]
      rw [matchTail_eq_recognize key hkey right hr]
      have hrev : (',' :: lrev).reverse ++ firstTok right =
          lrev.reverse ++ (',' :: firstTok right) := by
        simp
      rw [hrev, splitOnComma_append, splitOnComma_comma_free (firstTok right)
        (by intro x hx; have := List.mem_takeWhile_imp hx; simpa using this)]
      rw [getLast?_filterMap_concat]
      cases h : recognizeTok key (firstTok right) with
      | some v => rfl
      | none =>
        rw [ih (',' :: right) hc0.2 (by rw [hasChar_cons]; simp [hr])]
        rw [firstTok_cons_comma]
        simp
    · rw [show tryRev key (c :: lrev) right =
            (if c = ',' ∧ hasChar '\n' lrev = false then
              match matchTail key right with
              | some r => some r
              | none => tryRev key lrev (c :: right)
             else tryRev key lrev (c :: right)) from rfl]
      rw [if_neg (by tauto)]
      rw [ih (c :: right) hc0.2
        (by rw [hasChar_cons]; simp [hr, show decide (c = '\n') = false from hc0.1])]
      rw [firstTok_cons c _ hc]
      have hrev : lrev.reverse ++ (c :: firstTok right) =
          (c :: lrev).reverse ++ firstTok right := by
        simp
      rw [hrev]

theorem fullmatch_eq_grammar (key : Char) (hkey : isTagForbidden key = false) (s : Str)
    (hs : hasChar '\n' s = false) : fullmatchTag key s = grammarTag key s := by
  rw [show fullmatchTag key s = tryRev key s.reverse [] from rfl]
  rw [tryRev_eq key hkey s.reverse [] (by simpa [hasChar] using hs) (by simp [hasChar])]
  rw [show firstTok [] = [] from rfl]
  simp [grammarTag]

-- ---------------------------------------------------------------------
-- Machinery for the parse/write round trip (claim C1)
-- ---------------------------------------------------------------------

theorem mapExcept_forall₂ (f : Str → Except PErr (Str × Str)) (ls : List Str) :
    ∀ ps, mapExcept f ls = .ok ps → (∀ l ∈ ls, startsHash l = true) →
      List.Forall₂ (fun l kv => startsHash l = true ∧ f l = .ok kv) ls ps := by
  induction ls with
  | nil =>
    intro ps h _
    unfold mapExcept at h
    injection h with h1
    subst h1
    exact List.Forall₂.nil
  | cons l ls ih =>
    intro ps h hall
    unfold mapExcept at h
    cases hf : f l with
    | error e => rw [hf] at h; simp at h
    | ok kv =>
      rw [hf] at h
      cases hm : mapExcept f ls with
      | error e => rw [hm] at h; simp at h
      | ok kvs =>
        rw [hm] at h
        injection h with h1
        subst h1
        exact List.Forall₂.cons ⟨hall l (List.mem_cons_self _ _), hf⟩
          (ih kvs hm (fun x hx => hall x (List.mem_cons_of_mem _ hx)))

theorem read_line_key (l : Str) (kv : Str × Str) (h : read_line l = .ok kv) :
    kv.1 = lineKey l := by
  unfold read_line at h
  split at h
  · simp at h
  · next kv' heq =>
    split at h
    · simp at h
    · injection h with h1
      subst h1
      unfold splitColon1 at heq
      split at heq
      · simp at heq
      · next d0 dtl hd =>
        injection heq with h2
        rw [← h2]
        rfl

theorem read_line_reconstruct (l : Str) (kv : Str × Str) (hh : startsHash l = true)
    (h : read_line l = .ok kv) : l = lineOf kv := by
  cases l with
  | nil => simp [startsHash] at hh
  | cons c t =>
    have hc : c = '#' := by simpa [startsHash] using hh
    subst hc
    have hdrop : (('#' :: t : Str)).drop 1 = t := rfl
    unfold read_line at h
    rw [hdrop] at h
    split at h
    · simp at h
    · next kv' heq =>
      split at h
      · simp at h
      · injection h with h1
        subst h1
        unfold splitColon1 at heq
        split at heq
        · simp at heq
        · next d0 dtl hd =>
          injection heq with h2
          have hd0 : d0 = ':' := by
            have h3 := dropWhile_head_false _ _ _ _ hd
            simpa using h3
          have hsplit : t.takeWhile (fun c => !(decide (c = ':'))) ++
              t.dropWhile (fun c => !(decide (c = ':'))) = t :=
            List.takeWhile_append_dropWhile _ t
          rw [← h2]
          show ('#' :: t : Str) = '#' :: (t.takeWhile (fun c => !(decide (c = ':'))) ++ (':' :: dtl))
          congr 1
          conv_lhs => rw [← hsplit, hd, hd0]

theorem forall₂_keys (ls : List Str) (ps : List (Str × Str))
    (h : List.Forall₂ (fun l kv => startsHash l = true ∧ read_line l = .ok kv) ls ps) :
    ps.map Prod.fst = ls.map lineKey := by
  induction h with
  | nil => rfl
  | cons hrel _ ih => simp [ih, read_line_key _ _ hrel.2]

theorem filter_map_lines (ls : List Str) (ps : List (Str × Str))
    (h : List.Forall₂ (fun l kv => startsHash l = true ∧ read_line l = .ok kv) ls ps) :
    (ps.filter nonOwnedPair).map lineOf = ls.filter nonOwnedLine := by
  induction h with
  | nil => rfl
  | @cons l kv ls' ps' hrel hrest ih =>
    have hrec : l = lineOf kv := read_line_reconstruct l kv hrel.1 hrel.2
    have hkey : nonOwnedLine l = nonOwnedPair kv := by
      unfold nonOwnedLine nonOwnedPair
      rw [read_line_key l kv hrel.2]
    rw [List.filter_cons, List.filter_cons, hkey]
    cases hnp : nonOwnedPair kv with
    | true => simp [hrec, ih]
    | false => simp [ih]

theorem foldl_dictInsert (ps : List (Str × Str)) :
    ∀ acc, (ps.map Prod.fst).Nodup →
      (∀ p ∈ ps, acc.any (fun kv => decide (kv.1 = p.1)) = false) →
      ps.foldl (fun m kv => dictInsert m kv.1 kv.2) acc = acc ++ ps := by
  induction ps with
  | nil =>
    intro acc _ _
    simp
  | cons p ps ih =>
    intro acc hnd hdisj
    have hnotin : p.1 ∉ ps.map Prod.fst := by
      have h2 : (p.1 :: ps.map Prod.fst).Nodup := by simpa using hnd
      exact (List.nodup_cons.mp h2).1
    have hins : dictInsert acc p.1 p.2 = acc ++ [p] := by
      unfold dictInsert
      rw [if_neg (by simp [hdisj p (List.mem_cons_self _ _)])]
    have hnd2 : (ps.map Prod.fst).Nodup := by
      have h2 : (p.1 :: ps.map Prod.fst).Nodup := by simpa using hnd
      exact (List.nodup_cons.mp h2).2
    have hdisj2 : ∀ q ∈ ps, ((acc ++ [p]).any fun kv => decide (kv.1 = q.1)) = false := by
      intro q hq
      rw [List.any_append]
      have h1 : acc.any (fun kv => decide (kv.1 = q.1)) = false :=
        hdisj q (List.mem_cons_of_mem _ hq)
      have h2 : ¬ p.1 = q.1 := by
        intro hpq
        exact hnotin (hpq ▸ List.mem_map_of_mem Prod.fst hq)
      simp [h1, h2]
    rw [List.foldl_cons, hins, ih (acc ++ [p]) hnd2 hdisj2]
    simp

theorem dictOfPairs_eq_self (ps : List (Str × Str)) (h : (ps.map Prod.fst).Nodup) :
    dictOfPairs ps = ps := by
  have h2 := foldl_dictInsert ps [] h (by simp)
  simpa [dictOfPairs] using h2

theorem filter_nonOwned_map_update (m : List (Str × Str)) (k : Str) (v : Str)
    (hk : k ∈ ownedKeys) :
    (m.map (fun kv => if kv.1 = k then (k, v) else kv)).filter nonOwnedPair =
      m.filter nonOwnedPair := by
  induction m with
  | nil => rfl
  | cons kv m ih =>
    rw [List.map_cons, List.filter_cons, List.filter_cons]
    by_cases hkv : kv.1 = k
    · rw [if_pos hkv]
      have h1 : nonOwnedPair (k, v) = false := by simp [nonOwnedPair, hk]
      have h2 : nonOwnedPair kv = false := by simp [nonOwnedPair, hkv, hk]
      simp [h1, h2, ih]
    · rw [if_neg hkv]
      simp [ih]

theorem filter_nonOwned_dictInsert (m : List (Str × Str)) (k : Str) (v : Str)
    (hk : k ∈ ownedKeys) :
    (dictInsert m k v).filter nonOwnedPair = m.filter nonOwnedPair := by
  unfold dictInsert
  by_cases hany : m.any (fun kv => decide (kv.1 = k)) = true
  · rw [if_pos hany]
    exact filter_nonOwned_map_update m k v hk
  · rw [if_neg hany, List.filter_append]
    have h1 : nonOwnedPair (k, v) = false := by simp [nonOwnedPair, hk]
    simp [List.filter_cons, h1]

theorem filter_nonOwned_removeKey (m : List (Str × Str)) (k : Str) (hk : k ∈ ownedKeys) :
    (m.filter (fun kv => decide (kv.1 ≠ k))).filter nonOwnedPair = m.filter nonOwnedPair := by
  rw [List.filter_filter]
  apply List.filter_congr
  intro a _
  by_cases ha : a.1 = k
  · have h2 : nonOwnedPair a = false := by simp [nonOwnedPair, ha, hk]
    simp [h2]
  · simp [ha]

theorem filter_nonOwned_set_raw (m : List (Str × Str)) (field : Str) (v : Option Str)
    (hf : field ∈ ownedKeys) :
    (set_raw m field v).filter nonOwnedPair = m.filter nonOwnedPair := by
  unfold set_raw
  cases v with
  | some s => exact filter_nonOwned_dictInsert m field s hf
  | none =>
    by_cases hany : m.any (fun kv => decide (kv.1 = field)) = true
    · rw [if_pos hany]
      exact filter_nonOwned_removeKey m field hf
    · rw [if_neg hany]

theorem write_raw_filter (md : Metadata) (raw : List (Str × Str)) :
    (write_raw md raw).filter nonOwnedPair = raw.filter nonOwnedPair := by
  unfold write_raw
  rw [filter_nonOwned_set_raw _ _ _ (by simp [ownedKeys]),
    filter_nonOwned_set_raw _ _ _ (by simp [ownedKeys]),
    filter_nonOwned_set_raw _ _ _ (by simp [ownedKeys]),
    filter_nonOwned_set_raw _ _ _ (by simp [ownedKeys]),
    filter_nonOwned_set_raw _ _ _ (by simp [ownedKeys]),
    filter_nonOwned_set_raw _ _ _ (by simp [ownedKeys]),
    filter_nonOwned_set_raw _ _ _ (by simp [ownedKeys])]

theorem headerLines_startsHash (contents : Str) :
    ∀ l ∈ headerLines contents, startsHash l = true := by
  intro l hl
  exact List.mem_takeWhile_imp hl

theorem parse_file_ok (contents : Str) (md : Metadata) (raw : List (Str × Str)) (body : Str)
    (h : parse_file contents = .ok (md, raw, body)) :
    ∃ ps, headerPairs contents = .ok ps ∧ raw = dictOfPairs ps ∧ body = bodyOf contents := by
  unfold parse_file at h
  split at h
  · simp at h
  · next ps heq =>
    simp only [] at h
    split at h
    · simp at h
    · split at h
      · simp at h
      · split at h
        · simp at h
        · injection h with h1
          exact ⟨ps, heq, (congrArg (fun t => t.2.1) h1).symm,
            (congrArg (fun t => t.2.2) h1).symm⟩

/-- C1: for a valid song text file (one the parser accepts) whose comment
block has no duplicate keys, writing straight after parsing (Song._parse_file
then Song._write) produces the comment block rejoined with the body by a
single newline, the parsed body is written back verbatim, and every header
line whose key the tool does not own reappears with exactly its parsed value
and relative position. -/
theorem C1_parse_write_round_trip (contents : Str) (md : Metadata)
    (raw : List (Str × Str)) (body : Str)
    (hp : parse_file contents = .ok (md, raw, body))
    (hnd : ((headerLines contents).map lineKey).Nodup) :
    write_file md raw body =
      List.intercalate ['\n'] ((write_raw md raw).map lineOf) ++ ('\n' :: body)
    ∧ ((write_raw md raw).filter nonOwnedPair).map lineOf
        = (headerLines contents).filter nonOwnedLine
    ∧ body = bodyOf contents := by
  obtain ⟨ps, hps, hraw, hbody⟩ := parse_file_ok contents md raw body hp
  have h2 := mapExcept_forall₂ read_line (headerLines contents) ps hps
    (headerLines_startsHash contents)
  have hkeys : ps.map Prod.fst = (headerLines contents).map lineKey := forall₂_keys _ _ h2
  have hnd' : (ps.map Prod.fst).Nodup := by rw [hkeys]; exact hnd
  have hid : dictOfPairs ps = ps := dictOfPairs_eq_self ps hnd'
  refine ⟨rfl, ?_, hbody⟩
  rw [hraw, hid, write_raw_filter]
  exact filter_map_lines _ _ h2

-- ---------------------------------------------------------------------
-- Helper lemmas about Metadata construction, download, cover discovery
-- and deletion
-- ---------------------------------------------------------------------

theorem from_raw_fresh_video_none (title artist : Str) (mp3 cover background video : Option Str)
    (md : Metadata)
    (h : Metadata.from_raw_data title artist mp3 cover background video none = .ok md) :
    md.video = none := by
  cases video with
  | none => simp [Metadata.from_raw_data] at h
  | some v =>
    simp only [Metadata.from_raw_data] at h
    split at h
    · simp at h
    · injection h with h1
      rw [← h1]

theorem download_video_none (md : Metadata) (o : DlOracle) (hv : md.video_tag = none) :
    (download md o).err = none → (download md o).md.video = none := by
  unfold download
  split
  · intro herr
    simp at herr
  · split
    · intro herr
      simp at herr
    · split
      · intro herr
        simp at herr
      · split
        · intro _
          simp [hv]
        · intro herr
          simp at herr

theorem set_cover_preserves_video (md md' : Metadata) (disk : List Str)
    (h : set_cover md disk = .ok md') : md'.video = md.video ∧ md'.video_tag = md.video_tag := by
  unfold set_cover at h
  split at h
  · injection h with h1
    rw [← h1]
    exact ⟨rfl, rfl⟩
  · injection h with h1
    rw [← h1]
    exact ⟨rfl, rfl⟩
  · simp at h

theorem memb_iff_mem (f : Str) (d : List Str) : memb f d = true ↔ f ∈ d := by
  unfold memb
  rw [List.any_eq_true]
  constructor
  · rintro ⟨g, hg, he⟩
    have h2 : g = f := by simpa using he
    exact h2 ▸ hg
  · intro hf
    exact ⟨f, hf, by simp⟩

theorem deleteAll_disk_eq (fs : List Str) :
    ∀ disk, (deleteAll disk fs).1 = disk.filter (fun g => decide (¬ g ∈ fs)) := by
  induction fs with
  | nil =>
    intro disk
    simp [deleteAll]
  | cons g fs ih =>
    intro disk
    show (deleteAll (disk.filter (fun x => decide (x ≠ g))) fs).1 = _
    rw [ih, List.filter_filter]
    apply List.filter_congr
    intro a _
    by_cases hag : a = g
    · subst hag
      simp
    · simp [hag]

theorem deleteAll_deleted_mem (fs : List Str) :
    ∀ disk f, f ∈ (deleteAll disk fs).2 ↔ f ∈ fs ∧ f ∈ disk := by
  induction fs with
  | nil =>
    intro disk f
    simp [deleteAll]
  | cons g fs ih =>
    intro disk f
    show f ∈ ((if memb g disk then [g] else []) ++
        (deleteAll (disk.filter (fun x => decide (x ≠ g))) fs).2) ↔ _
    rw [List.mem_append, ih]
    constructor
    · rintro (h1 | h2)
      · by_cases hg : memb g disk = true
        · rw [if_pos hg] at h1
          have hf : f = g := by simpa using h1
          subst hf
          exact ⟨List.mem_cons_self _ _, (memb_iff_mem f disk).mp hg⟩
        · rw [if_neg hg] at h1
          simp at h1
      · obtain ⟨hf1, hf2⟩ := h2
        have h3 := List.mem_filter.mp hf2
        exact ⟨List.mem_cons_of_mem _ hf1, h3.1⟩
    · rintro ⟨hf1, hf2⟩
      rcases List.mem_cons.mp hf1 with hg | hfs
      · subst hg
        left
        rw [if_pos ((memb_iff_mem f disk).mpr hf2)]
        simp
      · by_cases hfg : f = g
        · subst hfg
          left
          rw [if_pos ((memb_iff_mem f disk).mpr hf2)]
          simp
        · right
          exact ⟨hfs, List.mem_filter.mpr ⟨hf2, by simpa using hfg⟩⟩

theorem isOutdated_false_iff (md : Metadata) :
    isOutdated md = false ↔
      (∀ f, md.mp3 = some f → fileCurrent f (governingMp3Tag md) = true)
      ∧ (∀ f, md.video = some f → fileCurrent f md.video_tag = true) := by
  unfold isOutdated
  simp only [List.any_cons, List.any_nil, Bool.or_false, Bool.or_eq_false_iff]
  constructor
  · intro h
    constructor
    · intro f hf
      have h1 := h.1
      rw [hf] at h1
      simpa using h1
    · intro f hf
      have h2 := h.2
      rw [hf] at h2
      simpa using h2
  · intro h
    constructor
    · cases hm : md.mp3 with
      | none => simp
      | some f => simpa using h.1 f hm
    · cases hv : md.video with
      | none => simp
      | some f => simpa using h.2 f hv

-- ---------------------------------------------------------------------
-- Claim theorems
-- ---------------------------------------------------------------------

theorem C1_witness :
    parse_file fileC1 = .ok (mdC1, rawC1, sHello)
    ∧ ((headerLines fileC1).map lineKey).Nodup
    ∧ ((write_raw mdC1 rawC1).filter nonOwnedPair).map lineOf
        = (headerLines fileC1).filter nonOwnedLine :=
  ⟨rfl, by decide,
    (C1_parse_write_round_trip fileC1 mdC1 rawC1 sHello rfl (by decide)).2.1⟩

theorem C2_counterexample :
    Metadata.from_raw_data sT sA none none none (some sFmp4) (some sAXyz) = .ok mdC2
    ∧ mdC2.video_tag = none
    ∧ mdC2.video = some sFmp4 :=
  ⟨rfl, rfl, rfl⟩

/-- C2 (amended): the fresh construction path always yields video = None;
the copy-with-changes replacement in Song._download yields video = None
whenever video_tag is None; and cover discovery's replacement leaves video
and video_tag untouched.  The processed construction path copies the raw
VIDEO field into video unchanged and therefore does not guarantee the
invariant (see the counterexample). -/
theorem C2_video_invariant_amended :
    (∀ (title artist : Str) (mp3 cover background video : Option Str) (md : Metadata),
        Metadata.from_raw_data title artist mp3 cover background video none = .ok md →
          md.video = none)
    ∧ (∀ (md : Metadata) (o : DlOracle), md.video_tag = none →
        (download md o).err = none → (download md o).md.video = none)
    ∧ (∀ (md md' : Metadata) (disk : List Str), set_cover md disk = .ok md' →
        md'.video = md.video ∧ md'.video_tag = md.video_tag) :=
  ⟨from_raw_fresh_video_none, download_video_none, set_cover_preserves_video⟩

theorem C2_witness :
    Metadata.from_raw_data sT sA none none none (some sVeq) none = .ok mdC2w
    ∧ mdC2w.video = none
    ∧ (download mdAudioOnly oracleDl).md.video = none
    ∧ ({ mdC2w with cover := none, background := none } : Metadata).video = mdC2w.video :=
  ⟨rfl,
    C2_video_invariant_amended.1 sT sA none none none (some sVeq) mdC2w rfl,
    C2_video_invariant_amended.2.1 mdAudioOnly oracleDl rfl (by decide),
    (C2_video_invariant_amended.2.2 mdC2w { mdC2w with cover := none, background := none }
      [] rfl).1⟩

theorem C3_counterexample :
    Metadata.from_raw_data sT sA none none none none (some sFoo) = .error .insufficientData
    ∧ Metadata.from_raw_data sT sA none none none none (some sFoo) ≠ .error .fileCorrupt := by
  refine ⟨rfl, ?_⟩
  intro h
  rw [show Metadata.from_raw_data sT sA none none none none (some sFoo) =
      .error .insufficientData from rfl] at h
  exact PErr.noConfusion (Except.error.inj h)

/-- C3 (amended): in the processed path (a tool-owned comment present), a
comment value matching neither the v= nor the a= grammar makes
Metadata.from_raw_data fail with InsufficientData — the same kind as the
fresh path uses, not FileCorrupt — independently of every other field, so
the value is never reinterpreted as a fresh song. -/
theorem C3_processed_invalid_comment (title artist : Str)
    (mp3 cover background video : Option Str) (cmt : Str)
    (hv : fullmatchTag 'v' cmt = none) (ha : fullmatchTag 'a' cmt = none) :
    Metadata.from_raw_data title artist mp3 cover background video (some cmt) =
      .error .insufficientData := by
  simp [Metadata.from_raw_data, media_tags_from_usdb_metadata, hv, ha]

theorem C3_witness :
    Metadata.from_raw_data sT sA none none none none (some sFoo) =
      .error .insufficientData :=
  C3_processed_invalid_comment sT sA none none none none sFoo (by decide) (by decide)

/-- C4: in the fresh path, a VIDEO field that carries no recognizable tag
does raise InsufficientData, but a *missing* VIDEO field reaches
re.fullmatch(pattern, None), which raises an uncaught TypeError instead of
InsufficientData — evaluating the embedded code at both inputs. -/
theorem C4_missing_video_typeerror :
    Metadata.from_raw_data sT sA none none none none none = .error .typeError
    ∧ Metadata.from_raw_data sT sA none none none (some sFoo) none =
        .error .insufficientData :=
  ⟨rfl, rfl⟩

/-- C5: for the bytes b"\x81" (invalid UTF-8, and undefined in CP1252) the
decoder raises an uncaught UnicodeDecodeError from the CP1252 fallback
rather than an EncodingError; for bytes the fallback can decode, a string
is returned (0x80 becomes U+20AC). -/
theorem C5_decoder_uncaught_error :
    utf8_contents [0x81] = .uncaughtDecodeError
    ∧ utf8_contents [0x80] = .ok [0x20AC]
    ∧ utf8_contents [0xE2, 0x82, 0xAC] = .ok [0x20AC] :=
  ⟨by decide, by decide, by decide⟩

theorem C6_counterexample :
    media_tags_from_usdb_metadata cxC6 = (none, none)
    ∧ grammarTag 'v' cxC6 = some tagAbc :=
  ⟨by decide, by decide⟩

/-- C6 (amended): for every input string containing no newline character —
all values the parser can ever feed it, since they come from splitlines —
the extractor returns exactly the pair given by the comma-token grammar
(v=<id> sets the video id, a=<id> the audio id, the last recognized token
winning, unrecognized tokens ignored).  On strings with a newline the
regex-based extractor returns no ids even when a token matches. -/
theorem C6_extractor_matches_grammar (s : Str) (hs : hasChar '\n' s = false) :
    media_tags_from_usdb_metadata s = (grammarTag 'v' s, grammarTag 'a' s) := by
  unfold media_tags_from_usdb_metadata
  rw [fullmatch_eq_grammar 'v' (by decide) s hs, fullmatch_eq_grammar 'a' (by decide) s hs]

theorem C6_witness :
    hasChar '\n' exC6 = false
    ∧ media_tags_from_usdb_metadata exC6 = (grammarTag 'v' exC6, grammarTag 'a' exC6)
    ∧ media_tags_from_usdb_metadata exC6 = (some tagAbc, some tagXyz)
    ∧ media_tags_from_usdb_metadata sVeq = (some tagAbc, none)
    ∧ media_tags_from_usdb_metadata sFoo = (none, none) :=
  ⟨by decide, C6_extractor_matches_grammar exC6 (by decide), by decide, by decide, by decide⟩

theorem C7_counterexample :
    fileCurrent mp3Odd (governingMp3Tag mdC7) = true
    ∧ tagBeforeExt mp3Odd tagAbc = false
    ∧ isOutdated mdC7 = false
    ∧ process true mdC7 [mp3Odd] oracle0 =
        { err := none, md := mdC7, disk := [mp3Odd], deleted := [],
          fetchInvoked := false, wrote := false } :=
  ⟨by decide, by decide, by decide, by decide⟩

/-- C7 (amended): a recorded filename counts as current for its governing
tag iff it contains the literal substring " [<tag>]." anywhere in the name
(not necessarily immediately before the extension); whenever any recorded
filename is not current, the recorded files that exist are deleted (deleting
never fails, a missing file is skipped) and control proceeds to the full
refetch path. -/
theorem C7_stale_rule (mutagenOn : Bool) (md : Metadata) (disk : List Str) (o : DlOracle) :
    (isOutdated md = false ↔
      (∀ f, md.mp3 = some f → fileCurrent f (governingMp3Tag md) = true)
      ∧ (∀ f, md.video = some f → fileCurrent f md.video_tag = true))
    ∧ (isOutdated md = true →
        process mutagenOn md disk o =
          fetchPath mutagenOn md (deleteAll disk (recordedFiles md)).1
            (deleteAll disk (recordedFiles md)).2 o)
    ∧ (deleteAll disk (recordedFiles md)).1 =
        disk.filter (fun g => decide (¬ g ∈ recordedFiles md))
    ∧ (∀ f, f ∈ (deleteAll disk (recordedFiles md)).2 ↔
        f ∈ recordedFiles md ∧ f ∈ disk) := by
  refine ⟨isOutdated_false_iff md, ?_, deleteAll_disk_eq (recordedFiles md) disk,
    fun f => deleteAll_deleted_mem (recordedFiles md) disk f⟩
  intro h
  unfold process
  rw [if_pos h]

theorem C7_witness :
    isOutdated mdC7w = true
    ∧ process true mdC7w [sOld] oracle0 =
        fetchPath true mdC7w (deleteAll [sOld] (recordedFiles mdC7w)).1
          (deleteAll [sOld] (recordedFiles mdC7w)).2 oracle0 :=
  ⟨by decide, (C7_stale_rule true mdC7w [sOld] oracle0).2.1 (by decide)⟩

theorem C8_counterexample :
    parse_file fileC8 = .ok (mdC8, rawC8, sBody)
    ∧ mdC8.video_tag = some tagAbc
    ∧ mdC8.video = none
    ∧ process true mdC8 [sSongAbc] oracle0 =
        { err := none, md := mdC8, disk := [sSongAbc], deleted := [],
          fetchInvoked := false, wrote := false } :=
  ⟨rfl, rfl, rfl, by decide⟩

/-- C8 (amended): when no recorded name is stale, a current mp3 present on
disk while a video filename is *recorded in the header* but absent from disk
raises ConservativeSkip with no fetch, no deletion and no write; so does,
symmetrically, a recorded video present without its mp3.  (When no video
filename is recorded at all, the code instead treats the song as clean even
if a video tag is set — see the counterexample.) -/
theorem C8_partial_skip (mutagenOn : Bool) (md : Metadata) (disk : List Str) (o : DlOracle)
    (hout : isOutdated md = false) :
    (mp3Found md disk = true → videoFound md disk = false → md.video ≠ none →
      process mutagenOn md disk o =
        { err := some .conservativeSkip, md := md, disk := disk, deleted := [],
          fetchInvoked := false, wrote := false })
    ∧ (mp3Found md disk = false → videoFound md disk = true →
      process mutagenOn md disk o =
        { err := some .conservativeSkip, md := md, disk := disk, deleted := [],
          fetchInvoked := false, wrote := false }) := by
  constructor
  · intro h1 h2 h3
    unfold process
    rw [if_neg (by simp [hout])]
    rw [if_neg (by
      rintro ⟨hA, hB⟩
      rcases hB with hB | hB
      · rw [h2] at hB
        exact Bool.noConfusion hB
      · exact h3 hB)]
    rw [if_pos h1]
  · intro h1 h2
    unfold process
    rw [if_neg (by simp [hout])]
    rw [if_neg (by
      rintro ⟨hA, hB⟩
      rw [h1] at hA
      exact Bool.noConfusion hA)]
    rw [if_neg (by
      intro hA
      rw [h1] at hA
      exact Bool.noConfusion hA)]
    rw [if_pos h2]

theorem C8_witness :
    process true mdBoth [sMp3Cur] oracle0 =
      { err := some .conservativeSkip, md := mdBoth, disk := [sMp3Cur], deleted := [],
        fetchInvoked := false, wrote := false }
    ∧ process true mdBoth [sMp4Cur] oracle0 =
      { err := some .conservativeSkip, md := mdBoth, disk := [sMp4Cur], deleted := [],
        fetchInvoked := false, wrote := false } :=
  ⟨(C8_partial_skip true mdBoth [sMp3Cur] oracle0 (by decide)).1 (by decide) (by decide)
      (by decide),
    (C8_partial_skip true mdBoth [sMp4Cur] oracle0 (by decide)).2 (by decide) (by decide)⟩

/-- C9: for a song classified clean — no recorded name stale, the recorded
mp3 present on disk, and the recorded video present or no video recorded —
Song.process performs no fetch, deletes nothing and does not rewrite the
text file: metadata, folder contents and header are left unchanged. -/
theorem C9_clean_no_fetch_no_write (mutagenOn : Bool) (md : Metadata) (disk : List Str)
    (o : DlOracle) (hout : isOutdated md = false) (hm : mp3Found md disk = true)
    (hv : videoFound md disk = true ∨ md.video = none) :
    process mutagenOn md disk o =
      { err := none, md := md, disk := disk, deleted := [],
        fetchInvoked := false, wrote := false } := by
  have hid3 : set_id3_tags mutagenOn md disk = none := by
    unfold set_id3_tags
    cases hmut : mutagenOn with
    | false => rfl
    | true =>
      rw [if_pos rfl]
      cases hmp : md.mp3 with
      | none =>
        unfold mp3Found at hm
        rw [hmp] at hm
        exact Bool.noConfusion hm
      | some f =>
        unfold mp3Found at hm
        rw [hmp] at hm
        have hm2 : memb f disk = true := by simpa using hm
        simp [hm2]
  unfold process
  rw [if_neg (by simp [hout]), if_pos (by exact ⟨hm, hv⟩), hid3]

theorem C9_witness :
    isOutdated mdBoth = false
    ∧ mp3Found mdBoth [sMp3Cur, sMp4Cur] = true
    ∧ videoFound mdBoth [sMp3Cur, sMp4Cur] = true
    ∧ process true mdBoth [sMp3Cur, sMp4Cur] oracle0 =
        { err := none, md := mdBoth, disk := [sMp3Cur, sMp4Cur], deleted := [],
          fetchInvoked := false, wrote := false } :=
  ⟨by decide, by decide, by decide,
    C9_clean_no_fetch_no_write true mdBoth [sMp3Cur, sMp4Cur] oracle0 (by decide) (by decide)
      (Or.inl (by decide))⟩

/-- C10: Song._set_cover sets background and cover together: zero jpg files
clears both, exactly one jpg sets both to its basename, more than one
raises UnexpectedState with the metadata unchanged; every successful result
has cover equal to background. -/
theorem C10_cover_background (md : Metadata) (disk : List Str) :
    (jpgFiles disk = [] →
      set_cover md disk = .ok { md with cover := none, background := none })
    ∧ (∀ f, jpgFiles disk = [f] →
      set_cover md disk = .ok { md with cover := some f, background := some f })
    ∧ (2 ≤ (jpgFiles disk).length → set_cover md disk = .error .unexpectedState)
    ∧ (∀ md', set_cover md disk = .ok md' → md'.cover = md'.background) := by
  refine ⟨?_, ?_, ?_, ?_⟩
  · intro h
    unfold set_cover
    rw [h]
  · intro f h
    unfold set_cover
    rw [h]
  · intro h
    unfold set_cover
    cases hj : jpgFiles disk with
    | nil =>
      rw [hj] at h
      simp at h
    | cons a t =>
      cases t with
      | nil =>
        rw [hj] at h
        simp at h
      | cons b t2 => rfl
  · intro md' h
    unfold set_cover at h
    split at h
    · injection h with h1
      rw [← h1]
    · injection h with h1
      rw [← h1]
    · simp at h

theorem C10_witness :
    jpgFiles [sCJpg] = [sCJpg]
    ∧ set_cover mdC1 [sCJpg] =
        .ok { mdC1 with cover := some sCJpg, background := some sCJpg } :=
  ⟨by decide, (C10_cover_background mdC1 [sCJpg]).2.1 sCJpg (by decide)⟩

end UsdxYtDl
